import Mathlib

/-!
Shallow embedding of the speech-coach streaming analysis pipeline
(`src/audio/audio_manager.py` and `src/analysis/speech_analyzer.py`).

Real arithmetic of the source (Python floats) is modelled over `ℚ`;
Python `int(...)` (truncation toward zero) is `pyInt`, Python `//`
on non-negative integers is `Nat` division.  Quantities the source
obtains from external libraries (parselmouth pitch contours, librosa
spectral features, the whisper subprocess, PyAudio capture) enter the
model as explicit parameters.
-/

def emptyStr : String := ""

/-- Python `int(...)` on a rational: truncation toward zero. -/
def pyInt (q : ℚ) : ℤ := if q < 0 then ⌈q⌉ else ⌊q⌋

/-! ## Audio buffer manager (`audio_manager.py`, `_process_audio_buffer`, lines 217-243)

`analysis_chunk_samples` (the window length `W`) and
`step_samples = analysis_chunk_samples - overlap_samples` are fixed at loop
entry; the loop takes the first `W` buffered samples as the chunk and keeps
`audio_buffer[step_samples:]`. -/

/-- One buffer operation: an `_audio_callback` append (line 213) or one
slicing attempt of the processing loop (lines 231-237). -/
inductive BufferOp where
  | append (chunk : List ℤ)
  | slice
deriving DecidableEq

/-- Lines 231-237: if at least `W` samples are buffered, return the first `W`
samples as the chunk and retain `audio_buffer[step:]`; otherwise nothing. -/
def sliceWindow (W step : ℕ) (buf : List ℤ) : Option (List ℤ × List ℤ) :=
  if W ≤ buf.length then some (buf.take W, buf.drop step) else none

/-- State transition of the buffer under one operation.  The state is the
live buffer together with the list of chunks sliced so far (in order). -/
def bufStep (W step : ℕ) (s : List ℤ × List (List ℤ)) (op : BufferOp) :
    List ℤ × List (List ℤ) :=
  match op with
  | .append c => (s.1 ++ c, s.2)
  | .slice =>
    match sliceWindow W step s.1 with
    | some (w, b) => (b, s.2 ++ [w])
    | none => s

/-- Run a sequence of buffer operations from the empty buffer
(`start_recording` clears the buffer, line 151). -/
def runOps (W step : ℕ) (ops : List BufferOp) : List ℤ × List (List ℤ) :=
  ops.foldl (bufStep W step) ([], [])

/-- The total sample stream appended over a sequence of operations. -/
def totalOf : List BufferOp → List ℤ
  | [] => []
  | .append c :: ops => c ++ totalOf ops
  | .slice :: ops => totalOf ops

/-- One iteration of the `_process_audio_buffer` loop body, lines 231-243:
given the buffer, the last emission time and the current time, it trims the
buffer when a full window is available and emits the chunk only when at
least 0.1 s have elapsed since the last emission (`last_emit_time` is
updated only on emission).  Returns (new buffer, new last-emit time,
emitted chunk if any). -/
def processStep (W step : ℕ) (buf : List ℤ) (lastEmit now : ℚ) :
    List ℤ × ℚ × Option (List ℤ) :=
  if W ≤ buf.length then
    let chunk := buf.take W
    let buf' := buf.drop step
    if (1 : ℚ) / 10 ≤ now - lastEmit then (buf', now, some chunk)
    else (buf', lastEmit, none)
  else (buf, lastEmit, none)

/-! ## Tokenization (`speech_analyzer.py`, lines 313 and 355)

Python tokenizes with `re.findall(r'\b\w+\b', text)`, i.e. the maximal runs
of word characters.  `\w` is modelled as ASCII alphanumeric or underscore. -/

def isWordChar (c : Char) : Bool := c.isAlphanum || c = '_'

/-- Accumulator-based splitting of a character list into the maximal runs of
word characters (`acc` holds the current run, reversed). -/
def runsAux : List Char → List Char → List (List Char)
  | [], acc => if acc.isEmpty then [] else [acc.reverse]
  | c :: cs, acc =>
    if isWordChar c then runsAux cs (c :: acc)
    else if acc.isEmpty then runsAux cs [] else acc.reverse :: runsAux cs []

/-- `re.findall(r'\b\w+\b', s)`: the maximal word-character runs of `s`. -/
def wordTokens (s : String) : List String := (runsAux s.data []).map String.mk

/-! ## Filler analysis (`_analyze_fillers`, lines 306-342) -/

/-- Default filler-word list (`__init__`, lines 36-39).  Note the entry
"you know" is two words. -/
def defaultFillerWords : List String :=
  [r"um", r"uh", r"er", r"ah", r"like", r"you know", r"so", r"well",
   r"actually", r"basically", r"literally", r"seriously", r"totally"]

structure FillerMetrics where
  count : ℕ
  ratio : ℚ
  types : List String
  score : ℕ
deriving DecidableEq

/-- Python `str.lower()` modelled characterwise (ASCII case folding). -/
def toLowerStr (s : String) : String := String.mk (s.data.map Char.toLower)

/-- Line 313: `words = re.findall(r'\b\w+\b', transcription.lower())`. -/
def fillerTokens (s : String) : List String := wordTokens (toLowerStr s)

/-- Lines 320-326: the tokens that appear in the filler-word list (the loop
counts them and collects the distinct ones). -/
def foundFillers (fillers : List String) (s : String) : List String :=
  (fillerTokens s).filter (fun w => fillers.contains w)

/-- Lines 331-335: score 100 at or below the ratio threshold,
`max(0, int(100 - ratio*1000))` above it. -/
def fillerScoreOf (threshold ratio : ℚ) : ℕ :=
  if ratio ≤ threshold then 100 else (max 0 (pyInt (100 - ratio * 1000))).toNat

/-- Lines 306-342: tokenize the lower-cased transcription, count tokens that
appear in the filler list, and score the filler ratio. -/
def analyzeFillers (fillers : List String) (threshold : ℚ) (transcription : String) :
    FillerMetrics :=
  if transcription = emptyStr then ⟨0, 0, [], 100⟩
  else if (fillerTokens transcription).length = 0 then ⟨0, 0, [], 100⟩
  else
    ⟨(foundFillers fillers transcription).length,
     ((foundFillers fillers transcription).length : ℚ) /
       ((fillerTokens transcription).length : ℚ),
     (foundFillers fillers transcription).dedup,
     fillerScoreOf threshold
       (((foundFillers fillers transcription).length : ℚ) /
         ((fillerTokens transcription).length : ℚ))⟩

/-! ## Speaking rate (`_analyze_speaking_rate`, lines 348-377) -/

structure RateMetrics where
  words_per_minute : ℚ
  word_count : ℕ
  score : ℕ
deriving DecidableEq

/-- Lines 348-377 with the configured good range `[lo, hi]`
(`thresholds['speaking_rate_good']`, default `(150, 200)`): WPM is
`word_count / duration * 60`; score 100 inside the range,
`max(0, int(wpm/lo*100))` below it, `max(0, int(100-(wpm-hi)/2))` above. -/
def rateScore (lo hi wpm : ℚ) : ℕ :=
  if lo ≤ wpm ∧ wpm ≤ hi then 100
  else if wpm < lo then (max 0 (pyInt (wpm / lo * 100))).toNat
  else (max 0 (pyInt (100 - (wpm - hi) / 2))).toNat

def analyzeSpeakingRate (lo hi : ℚ) (transcription : String) (duration : ℚ) :
    RateMetrics :=
  if transcription = emptyStr ∨ duration ≤ 0 then ⟨0, 0, 0⟩
  else
    let wordCount := (wordTokens transcription).length
    let wpm := (wordCount : ℚ) / duration * 60
    ⟨wpm, wordCount, rateScore lo hi wpm⟩

/-! ## Prosody / tone (`_analyze_tone`, lines 192-229)

The pitch contour comes from parselmouth (external); the model takes the
frame pitch values as input.  The source compares the standard deviation
`pitch_std = sqrt(variance)` against the configured bounds; to stay in `ℚ`
the model tracks the variance (std squared) and compares it against the
squared bounds, which is equivalent for non-negative std and bounds. -/

def qmean (l : List ℚ) : ℚ := l.sum / (l.length : ℚ)

def qvariance (l : List ℚ) : ℚ :=
  ((l.map (fun x => (x - qmean l) ^ 2)).sum) / (l.length : ℚ)

def listMax : List ℚ → ℚ
  | [] => 0
  | x :: xs => xs.foldl max x

def listMin : List ℚ → ℚ
  | [] => 0
  | x :: xs => xs.foldl min x

structure ToneMetrics where
  pitch_mean : ℚ
  pitch_var : ℚ
  pitch_range : ℚ
  score : ℕ
deriving DecidableEq

/-- Lines 192-229 with configured good std range `[lo, hi]`
(`thresholds['pitch_variance_good']`, default `(50, 150)`): keep only
frames with pitch `> 0`; if none remain return all zeros with score 0;
otherwise score 100, or 50 when `std < lo` (variance `< lo²`), or 70 when
`std > hi` (variance `> hi²`). -/
def toneScoreOfVar (lo hi v : ℚ) : ℕ :=
  if v < lo ^ 2 then 50 else if hi ^ 2 < v then 70 else 100

def analyzeTone (lo hi : ℚ) (pitchValues : List ℚ) : ToneMetrics :=
  let valid := pitchValues.filter (fun p => decide (0 < p))
  if valid.isEmpty then ⟨0, 0, 0, 0⟩
  else
    let v := qvariance valid
    ⟨qmean valid, v, listMax valid - listMin valid, toneScoreOfVar lo hi v⟩

/-! ## Score aggregation (`_calculate_scores`, lines 383-401) -/

/-- Weight literals of lines 395-398. -/
def wTone : ℚ := 1 / 4
def wClarity : ℚ := 1 / 4
def wVolume : ℚ := 1 / 5
def wFluency : ℚ := 3 / 10

/-- Line 389-390: fluency is the integer average (Python `// 2`) of the
filler score and the rate score. -/
def fluencyScore (fillerS rateS : ℕ) : ℕ := (fillerS + rateS) / 2

/-- Lines 394-399: the overall score is
`int(tone*0.25 + clarity*0.25 + volume*0.2 + fluency*0.3)`. -/
def overallScore (tone clarity volume fluency : ℕ) : ℤ :=
  pyInt ((tone : ℚ) * wTone + (clarity : ℚ) * wClarity +
         (volume : ℚ) * wVolume + (fluency : ℚ) * wFluency)

structure AnalysisScores where
  overall : ℤ
  tone : ℕ
  clarity : ℕ
  volume : ℕ
  fluency : ℕ
deriving DecidableEq

/-- `_calculate_scores` assembled on the five per-metric scores. -/
def calculateScores (tone clarity volume fillerS rateS : ℕ) : AnalysisScores :=
  ⟨overallScore tone clarity volume (fluencyScore fillerS rateS),
   tone, clarity, volume, fluencyScore fillerS rateS⟩

/-! ## Settings update (`update_settings`, lines 494-502) -/

structure Thresholds where
  pitch_variance_good : ℚ × ℚ
  speaking_rate_good : ℚ × ℚ
  volume_consistency_good : ℚ
  filler_words_threshold : ℚ
deriving DecidableEq

/-- Defaults of `__init__`, lines 28-33. -/
def defaultThresholds : Thresholds := ⟨(50, 150), (150, 200), 4 / 5, 1 / 20⟩

/-- A partial thresholds dictionary (`settings['thresholds']` may carry any
subset of the keys; `dict.update` merges them). -/
structure ThresholdsUpdate where
  pitch_variance_good : Option (ℚ × ℚ)
  speaking_rate_good : Option (ℚ × ℚ)
  volume_consistency_good : Option ℚ
  filler_words_threshold : Option ℚ
deriving DecidableEq

/-- A `settings` dictionary as read by `update_settings`.  The function
looks up only the keys `thresholds` and `filler_words`; a `weights` entry,
if present, is never read.  Category weights are not part of the analyzer
state at all (they are the literals of lines 395-398). -/
structure AnalyzerSettingsInput where
  thresholds : Option ThresholdsUpdate
  filler_words : Option (List String)
  weights : Option (List ℚ)
deriving DecidableEq

structure AnalyzerState where
  thresholds : Thresholds
  filler_words : List String
deriving DecidableEq

def defaultAnalyzerState : AnalyzerState := ⟨defaultThresholds, defaultFillerWords⟩

def updateThresholds (t : Thresholds) (u : ThresholdsUpdate) : Thresholds :=
  ⟨u.pitch_variance_good.getD t.pitch_variance_good,
   u.speaking_rate_good.getD t.speaking_rate_good,
   u.volume_consistency_good.getD t.volume_consistency_good,
   u.filler_words_threshold.getD t.filler_words_threshold⟩

/-- Lines 494-502: merge `settings['thresholds']` into the thresholds,
replace the filler list when `settings['filler_words']` is present, and log
an info line.  No warning is ever emitted and no other key is read; the
second component collects the warnings surfaced by the call (always none).
-/
def updateSettings (st : AnalyzerState) (s : AnalyzerSettingsInput) :
    AnalyzerState × List String :=
  let st1 := match s.thresholds with
    | some u => { st with thresholds := updateThresholds st.thresholds u }
    | none => st
  let st2 := match s.filler_words with
    | some fw => { st1 with filler_words := fw }
    | none => st1
  (st2, [])

/-! ## Transcription adapter (`_transcribe_audio`, lines 139-190)

The external whisper process is modelled by its observable outcome.  The
temporary WAV file is written before the subprocess call; `os.unlink` (line
175) runs after `subprocess.run` returns and before the return-code check,
so it runs on success and on engine failure — but `subprocess.run` raising
`TimeoutExpired` jumps to the `except` handler (line 188), skipping the
unlink. -/

inductive EngineOutcome where
  | success (stdout : List String)
  | failure (stderr : String)
  | timeout
deriving DecidableEq

structure TranscribeEffect where
  text : String
  tempCreated : Bool
  tempDeleted : Bool
deriving DecidableEq

def bracketMark : String := "["
def whisperMark : String := "whisper_"

/-- Lines 179-183: the transcript is the first stdout line that is nonempty
and starts neither with `[` nor with `whisper_`, stripped; else empty. -/
def goodLine (l : String) : Bool :=
  !(l == emptyStr) && !(l.startsWith bracketMark) && !(l.startsWith whisperMark)

def extractTranscript (lines : List String) : String :=
  ((lines.find? goodLine).map String.trim).getD emptyStr

/-- Lines 139-190: result text together with whether a temporary WAV file
was created and whether it was deleted before returning. -/
def transcribeAudio (available : Bool) (outcome : EngineOutcome) : TranscribeEffect :=
  if available then
    match outcome with
    | .success out => ⟨extractTranscript out, true, true⟩
    | .failure _ => ⟨emptyStr, true, true⟩
    | .timeout => ⟨emptyStr, true, false⟩
  else ⟨emptyStr, false, false⟩

/-! ## Top-level analysis gate (`analyze_audio`, lines 69-137, and
`_has_speech`, lines 434-437) -/

structure AnalysisResult where
  transcription : String
  scores : AnalysisScores
  alerts : List String
deriving DecidableEq

/-- The `results` dictionary as initialized at lines 85-104: empty
transcription, all scores 0, no alerts. -/
def initialResult : AnalysisResult := ⟨emptyStr, ⟨0, 0, 0, 0, 0⟩, []⟩

/-- Line 82: `audio_data.astype(np.float32) / 32767.0`. -/
def audioFloat (audio : List ℤ) : List ℚ :=
  audio.map (fun x : ℤ => (x : ℚ) / 32767)

def meanSquare (l : List ℚ) : ℚ := (l.map (fun x => x ^ 2)).sum / (l.length : ℚ)

/-- Lines 434-437: `rms > 0.01` where `rms = sqrt(mean(audio**2))`.  For a
non-negative mean square this is equivalent to `mean(audio**2) > 0.0001`,
which is how the model states it to stay in `ℚ`. -/
def hasSpeech (audio : List ℚ) : Bool := decide ((1 : ℚ) / 10000 < meanSquare audio)

/-- Lines 106-133: the gate.  When `_has_speech` accepts, the transcription,
extractor, scoring and alert stages (lines 108-131) run; they are abstracted
as the parameter `heavy` since every claim about this function concerns only
the gate.  The boolean records whether the heavy branch was entered. -/
def analyzeAudio (heavy : List ℚ → AnalysisResult) (audio : List ℤ) :
    AnalysisResult × Bool :=
  let f := audioFloat audio
  if hasSpeech f then (heavy f, true) else (initialResult, false)

/-! ## Helper lemmas -/

theorem pyInt_of_nonneg {q : ℚ} (h : 0 ≤ q) : pyInt q = ⌊q⌋ := by
  simp [pyInt, not_lt.mpr h]

theorem pyInt_mono {p q : ℚ} (h : p ≤ q) : pyInt p ≤ pyInt q := by
  unfold pyInt
  by_cases h1 : p < 0
  · by_cases h2 : q < 0
    · simp only [if_pos h1, if_pos h2]
      exact Int.ceil_le_ceil h
    · simp only [if_pos h1, if_neg h2]
      refine le_trans ?_ (Int.floor_nonneg.mpr (not_lt.mp h2))
      have hc : (⌈p⌉ : ℤ) ≤ ⌈(0 : ℚ)⌉ := Int.ceil_le_ceil (le_of_lt h1)
      simpa using hc
  · have h2 : ¬ q < 0 := fun hq => h1 (lt_of_le_of_lt h hq)
    simp only [if_neg h1, if_neg h2]
    exact Int.floor_le_floor h

/-! ## Claim C2 -/

/-- C2 counterexample: with sub-scores tone = 3, clarity = volume = fluency
= 0, the code computes `int(3*0.25) = 0`, whereas rounding the weighted sum
`0.75` gives 1; so the overall score is not `round` of the weighted sum. -/
theorem C2_counterexample :
    overallScore 3 0 0 0 = 0 ∧
    round ((3 : ℚ) * wTone + (0 : ℚ) * wClarity + (0 : ℚ) * wVolume +
      (0 : ℚ) * wFluency) = 1 ∧
    overallScore 3 0 0 0 ≠
      round ((3 : ℚ) * wTone + (0 : ℚ) * wClarity + (0 : ℚ) * wVolume +
        (0 : ℚ) * wFluency) := by
  have h1 : overallScore 3 0 0 0 = 0 := by
    unfold overallScore pyInt wTone wClarity wVolume wFluency
    norm_num [Int.floor_eq_zero_iff, Set.mem_Ico]
  have h2 : round ((3 : ℚ) * wTone + (0 : ℚ) * wClarity + (0 : ℚ) * wVolume +
      (0 : ℚ) * wFluency) = 1 := by
    unfold wTone wClarity wVolume wFluency
    norm_num [round_eq, Int.floor_eq_iff]
  exact ⟨h1, h2, by rw [h1, h2]; decide⟩

/-- C2 amended: for sub-scores in `[0,100]` the aggregator computes the
overall score as the truncation (floor) of
`tone*0.25 + clarity*0.25 + volume*0.20 + fluency*0.30` — not `round` — the
weights sum to 1, and the result is an integer in `[0,100]`. -/
theorem C2_overall_is_floor_of_weighted_sum (t c v f : ℕ)
    (ht : t ≤ 100) (hc : c ≤ 100) (hv : v ≤ 100) (hf : f ≤ 100) :
    overallScore t c v f =
      ⌊(t : ℚ) * wTone + (c : ℚ) * wClarity + (v : ℚ) * wVolume +
        (f : ℚ) * wFluency⌋ ∧
    wTone + wClarity + wVolume + wFluency = 1 ∧
    0 ≤ overallScore t c v f ∧ overallScore t c v f ≤ 100 := by
  have hw : (0 : ℚ) ≤ (t : ℚ) * wTone + (c : ℚ) * wClarity + (v : ℚ) * wVolume +
      (f : ℚ) * wFluency := by
    have h1 : (0 : ℚ) ≤ (t : ℚ) := Nat.cast_nonneg t
    have h2 : (0 : ℚ) ≤ (c : ℚ) := Nat.cast_nonneg c
    have h3 : (0 : ℚ) ≤ (v : ℚ) := Nat.cast_nonneg v
    have h4 : (0 : ℚ) ≤ (f : ℚ) := Nat.cast_nonneg f
    unfold wTone wClarity wVolume wFluency
    nlinarith
  have hfl : overallScore t c v f =
      ⌊(t : ℚ) * wTone + (c : ℚ) * wClarity + (v : ℚ) * wVolume +
        (f : ℚ) * wFluency⌋ := by
    unfold overallScore
    exact pyInt_of_nonneg hw
  refine ⟨hfl, by norm_num [wTone, wClarity, wVolume, wFluency], ?_, ?_⟩
  · rw [hfl]; exact Int.floor_nonneg.mpr hw
  · rw [hfl]
    have hub : (t : ℚ) * wTone + (c : ℚ) * wClarity + (v : ℚ) * wVolume +
        (f : ℚ) * wFluency ≤ 100 := by
      have h1 : (t : ℚ) ≤ 100 := by exact_mod_cast ht
      have h2 : (c : ℚ) ≤ 100 := by exact_mod_cast hc
      have h3 : (v : ℚ) ≤ 100 := by exact_mod_cast hv
      have h4 : (f : ℚ) ≤ 100 := by exact_mod_cast hf
      unfold wTone wClarity wVolume wFluency
      nlinarith
    calc ⌊(t : ℚ) * wTone + (c : ℚ) * wClarity + (v : ℚ) * wVolume +
        (f : ℚ) * wFluency⌋ ≤ ⌊(100 : ℚ)⌋ := Int.floor_le_floor hub
      _ = 100 := by norm_num

/-- C2 witness: the amended theorem applied at sub-scores (50, 50, 50, 50). -/
theorem C2_witness :
    overallScore 50 50 50 50 =
      ⌊(50 : ℚ) * wTone + (50 : ℚ) * wClarity + (50 : ℚ) * wVolume +
        (50 : ℚ) * wFluency⌋ ∧
    wTone + wClarity + wVolume + wFluency = 1 ∧
    0 ≤ overallScore 50 50 50 50 ∧ overallScore 50 50 50 50 ≤ 100 :=
  C2_overall_is_floor_of_weighted_sum 50 50 50 50 (by decide) (by decide)
    (by decide) (by decide)

/-! ## Claim C3 -/

/-- C3: the temporary WAV file is deleted on success and on engine failure
(`os.unlink` runs before the return-code check), but on a subprocess
timeout the `TimeoutExpired` exception jumps to the handler before the
unlink, so the file is created and never deleted — contradicting the claim
that deletion happens on every exit path. -/
theorem C3_temp_file_not_deleted_on_timeout :
    (transcribeAudio true (EngineOutcome.success [emptyStr])).tempDeleted = true ∧
    (transcribeAudio true (EngineOutcome.failure emptyStr)).tempDeleted = true ∧
    (transcribeAudio true EngineOutcome.timeout).tempCreated = true ∧
    (transcribeAudio true EngineOutcome.timeout).tempDeleted = false :=
  ⟨rfl, rfl, rfl, rfl⟩

/-! ## Claim C8 -/

/-- A settings dictionary carrying a `weights` entry whose four weights sum
to 4, not 1. -/
def badWeightsSettings : AnalyzerSettingsInput := ⟨none, none, some [1, 1, 1, 1]⟩

/-- C8 counterexample: for a configuration whose weights sum to 4 ≠ 1,
`update_settings` surfaces no warning and changes nothing — there is no
rejection/fallback mechanism for weights anywhere in the code. -/
theorem C8_counterexample :
    ([(1 : ℚ), 1, 1, 1].sum ≠ 1) ∧
    (updateSettings defaultAnalyzerState badWeightsSettings).2 = [] ∧
    (updateSettings defaultAnalyzerState badWeightsSettings).1 = defaultAnalyzerState := by
  refine ⟨by norm_num, rfl, rfl⟩

/-- C8 amended: category weights are not part of the configuration at all —
`update_settings` reads only `thresholds` and `filler_words`, never
validates weights and never emits a warning for any input; the aggregator
always uses the hardcoded default weights (0.25, 0.25, 0.20, 0.30), which
sum to 1, so no overall score is ever computed with non-normalized weights.
-/
theorem C8_no_weight_validation (st : AnalyzerState) (s : AnalyzerSettingsInput) :
    (updateSettings st s).2 = [] ∧
    wTone + wClarity + wVolume + wFluency = 1 ∧
    (∀ t c v f : ℕ, overallScore t c v f =
      pyInt ((t : ℚ) * wTone + (c : ℚ) * wClarity + (v : ℚ) * wVolume +
        (f : ℚ) * wFluency)) :=
  ⟨rfl, by norm_num [wTone, wClarity, wVolume, wFluency], fun _ _ _ _ => rfl⟩

/-! ## Claim C9 -/

/-- C9: in any loop iteration with a full window available, the buffer is
trimmed to `audio_buffer[step:]` whether or not the chunk is emitted, and
when less than 0.1 s have elapsed since the last emission the chunk is
dropped (nothing is emitted). -/
theorem C9_chunk_consumed_and_rate_limited (W step : ℕ) (buf : List ℤ)
    (lastEmit now : ℚ) (h : W ≤ buf.length) :
    (processStep W step buf lastEmit now).1 = buf.drop step ∧
    (now - lastEmit < 1 / 10 →
      (processStep W step buf lastEmit now).2.2 = none ∧
      (processStep W step buf lastEmit now).2.1 = lastEmit) := by
  unfold processStep
  rw [if_pos h]
  by_cases ht : (1 : ℚ) / 10 ≤ now - lastEmit
  · rw [if_pos ht]
    exact ⟨rfl, fun hlt => absurd ht (not_le.mpr hlt)⟩
  · rw [if_neg ht]
    exact ⟨rfl, fun _ => ⟨rfl, rfl⟩⟩

/-- C9 witness: a buffer of 4 samples with window 3, step 2, and only 0.01 s
since the last emission: the buffer is trimmed but nothing is emitted. -/
theorem C9_witness :
    (processStep 3 2 [1, 2, 3, 4] 0 (1 / 100)).1 = List.drop 2 [1, 2, 3, 4] ∧
    (processStep 3 2 [1, 2, 3, 4] 0 (1 / 100)).2.2 = none ∧
    (processStep 3 2 [1, 2, 3, 4] 0 (1 / 100)).2.1 = 0 := by
  have h := C9_chunk_consumed_and_rate_limited 3 2 [1, 2, 3, 4] 0 (1 / 100)
    (by decide)
  exact ⟨h.1, (h.2 (by norm_num)).1, (h.2 (by norm_num)).2⟩

/-! ## Claim C4 -/

/-- C4: an all-zero window of any length is rejected by the `_has_speech`
energy gate (its RMS is 0, not above the 0.01 threshold), so the result is
the initialized record — overall score 0, empty alerts, empty
transcription — independently of the transcription/extractor stages
(`heavy`), which are never invoked. -/
theorem C4_silence_gated (heavy : List ℚ → AnalysisResult) (n : ℕ) :
    analyzeAudio heavy (List.replicate n 0) = (initialResult, false) ∧
    hasSpeech (audioFloat (List.replicate n 0)) = false ∧
    initialResult.scores.overall = 0 ∧
    initialResult.alerts = [] ∧
    initialResult.transcription = emptyStr := by
  have hf : audioFloat (List.replicate n 0) = List.replicate n (0 : ℚ) := by
    unfold audioFloat
    rw [List.map_replicate]
    norm_num
  have hs : hasSpeech (audioFloat (List.replicate n 0)) = false := by
    rw [hf]
    unfold hasSpeech meanSquare
    rw [List.map_replicate]
    norm_num
  refine ⟨?_, hs, rfl, rfl, rfl⟩
  simp [analyzeAudio, hs]

/-! ## Claim C6 -/

theorem rateScore_at_zero {lo hi : ℚ} (hlo : 0 < lo) : rateScore lo hi 0 = 0 := by
  unfold rateScore
  rw [if_neg (by intro hc; exact absurd (le_trans hc.1 (le_refl 0)) (not_le.mpr hlo)),
    if_pos hlo]
  simp [pyInt]

/-- The score field of `_analyze_speaking_rate` is always `rateScore` of the
WPM field: in the no-transcription branch both are 0 (for a positive lower
bound). -/
theorem analyzeSpeakingRate_score (lo hi : ℚ) (s : String) (d : ℚ)
    (hlo : 0 < lo) :
    (analyzeSpeakingRate lo hi s d).score =
      rateScore lo hi (analyzeSpeakingRate lo hi s d).words_per_minute := by
  unfold analyzeSpeakingRate
  by_cases h : s = emptyStr ∨ d ≤ 0
  · rw [if_pos h]
    exact (rateScore_at_zero hlo).symm
  · rw [if_neg h]

/-- C6: with a configured good range `[lo, hi]` (`0 < lo ≤ hi`): a WPM of
exactly `lo` or exactly `hi` scores 100; a WPM of 0 scores 0; below `lo`
the score is the (truncated) proportional value `wpm/lo*100`; above `hi` it
is the (truncated) `100 - (wpm-hi)/2`; both expressions are floored at 0 by
the `max`. -/
theorem C6_speaking_rate_bounds (lo hi : ℚ) (s : String) (d : ℚ)
    (hlo : 0 < lo) (hlh : lo ≤ hi) :
    ((analyzeSpeakingRate lo hi s d).words_per_minute = lo →
      (analyzeSpeakingRate lo hi s d).score = 100) ∧
    ((analyzeSpeakingRate lo hi s d).words_per_minute = hi →
      (analyzeSpeakingRate lo hi s d).score = 100) ∧
    ((analyzeSpeakingRate lo hi s d).words_per_minute = 0 →
      (analyzeSpeakingRate lo hi s d).score = 0) ∧
    ((analyzeSpeakingRate lo hi s d).words_per_minute < lo →
      (analyzeSpeakingRate lo hi s d).score =
        (max 0 (pyInt ((analyzeSpeakingRate lo hi s d).words_per_minute / lo * 100))).toNat) ∧
    (hi < (analyzeSpeakingRate lo hi s d).words_per_minute →
      (analyzeSpeakingRate lo hi s d).score =
        (max 0 (pyInt (100 - ((analyzeSpeakingRate lo hi s d).words_per_minute - hi) / 2))).toNat) := by
  have hsc := analyzeSpeakingRate_score lo hi s d hlo
  refine ⟨?_, ?_, ?_, ?_, ?_⟩
  · intro he
    rw [hsc, he]
    unfold rateScore
    rw [if_pos ⟨le_refl lo, hlh⟩]
  · intro he
    rw [hsc, he]
    unfold rateScore
    rw [if_pos ⟨hlh, le_refl hi⟩]
  · intro he
    rw [hsc, he]
    exact rateScore_at_zero hlo
  · intro hb
    rw [hsc]
    unfold rateScore
    rw [if_neg (by intro hc; exact absurd hb (not_lt.mpr hc.1)), if_pos hb]
  · intro ha
    rw [hsc]
    unfold rateScore
    rw [if_neg (by intro hc; exact absurd ha (not_lt.mpr hc.2)),
      if_neg (by intro hc; exact absurd (lt_trans hc (lt_of_le_of_lt hlh ha)) (lt_irrefl _))]

def fiveWordsStr : String := "one two three four five"

/-- C6 witness: five words over 2 seconds is exactly 150 WPM, the lower
bound of the default good range, and scores 100. -/
theorem fiveWords_wpm : (analyzeSpeakingRate 150 200 fiveWordsStr 2).words_per_minute = 150 := by
  have hlen : (wordTokens fiveWordsStr).length = 5 := by decide
  have hcond : ¬ (fiveWordsStr = emptyStr ∨ (2 : ℚ) ≤ 0) := by
    push_neg
    exact ⟨by decide, by norm_num⟩
  unfold analyzeSpeakingRate
  rw [if_neg hcond]
  show ((wordTokens fiveWordsStr).length : ℚ) / 2 * 60 = 150
  rw [hlen]
  norm_num

theorem C6_witness : (analyzeSpeakingRate 150 200 fiveWordsStr 2).score = 100 :=
  (C6_speaking_rate_bounds 150 200 fiveWordsStr 2 (by norm_num) (by norm_num)).1
    fiveWords_wpm

/-! ## Claim C5 -/

/-- C5: `_analyze_tone` discards unvoiced/zero pitch frames (analyzing a
contour and analyzing its positive frames give the same result); with no
voiced frames it returns the all-zero metrics with score 0; otherwise, for
a configured good std range `[lo, hi]` with `0 ≤ lo ≤ hi`, it scores 100
exactly when the voiced-pitch variance (std²) lies within `[lo², hi²]`, 50
exactly when below, and 70 exactly when above. -/
theorem C5_tone_scoring (lo hi : ℚ) (pv : List ℚ) (h0 : 0 ≤ lo) (hlh : lo ≤ hi) :
    analyzeTone lo hi pv = analyzeTone lo hi (pv.filter (fun p => decide (0 < p))) ∧
    ((pv.filter (fun p => decide (0 < p))).isEmpty = true →
      analyzeTone lo hi pv = ⟨0, 0, 0, 0⟩) ∧
    ((pv.filter (fun p => decide (0 < p))).isEmpty = false →
      (((analyzeTone lo hi pv).score = 100 ↔
          lo ^ 2 ≤ qvariance (pv.filter (fun p => decide (0 < p))) ∧
          qvariance (pv.filter (fun p => decide (0 < p))) ≤ hi ^ 2) ∧
        ((analyzeTone lo hi pv).score = 50 ↔
          qvariance (pv.filter (fun p => decide (0 < p))) < lo ^ 2) ∧
        ((analyzeTone lo hi pv).score = 70 ↔
          hi ^ 2 < qvariance (pv.filter (fun p => decide (0 < p)))))) := by
  have hll : lo ^ 2 ≤ hi ^ 2 := by nlinarith
  have hff : (pv.filter (fun p => decide (0 < p))).filter (fun p => decide (0 < p)) =
      pv.filter (fun p => decide (0 < p)) := by
    rw [List.filter_filter]
    simp
  refine ⟨?_, ?_, ?_⟩
  · unfold analyzeTone
    rw [hff]
  · intro h
    unfold analyzeTone
    rw [if_pos h]
  · intro h
    have hsc : (analyzeTone lo hi pv).score =
        toneScoreOfVar lo hi (qvariance (pv.filter (fun p => decide (0 < p)))) := by
      unfold analyzeTone
      rw [if_neg (by rw [h]; exact Bool.false_ne_true)]
    rw [hsc]
    unfold toneScoreOfVar
    set v := qvariance (pv.filter (fun p => decide (0 < p))) with hv
    by_cases h1 : v < lo ^ 2
    · rw [if_pos h1]
      refine ⟨?_, ?_, ?_⟩
      · constructor
        · intro hc; exact absurd hc (by omega)
        · intro hc; exact absurd h1 (not_lt.mpr hc.1)
      · simp [h1]
      · constructor
        · intro hc; exact absurd hc (by omega)
        · intro hc; exact absurd (lt_trans hc h1) (not_lt.mpr hll)
    · rw [if_neg h1]
      by_cases h2 : hi ^ 2 < v
      · rw [if_pos h2]
        refine ⟨?_, ?_, ?_⟩
        · constructor
          · intro hc; exact absurd hc (by omega)
          · intro hc; exact absurd h2 (not_lt.mpr hc.2)
        · constructor
          · intro hc; exact absurd hc (by omega)
          · intro hc; exact absurd hc h1
        · simp [h2]
      · rw [if_neg h2]
        refine ⟨?_, ?_, ?_⟩
        · simp only [true_iff]
          exact ⟨not_lt.mp h1, not_lt.mp h2⟩
        · constructor
          · intro hc; exact absurd hc (by omega)
          · intro hc; exact absurd hc h1
        · constructor
          · intro hc; exact absurd hc (by omega)
          · intro hc; exact absurd hc h2

/-- C5 witness: one voiced frame at 100 Hz among zeros has variance 0, below
the default good range `[50,150]`, so the tone score is 50 (monotone). -/
theorem C5_witness : (analyzeTone 50 150 [0, 100]).score = 50 :=
  (((C5_tone_scoring 50 150 [0, 100] (by norm_num) (by norm_num)).2.2
    (by decide)).2.1).mpr (by
      have hfil : List.filter (fun p => decide ((0 : ℚ) < p)) [0, 100] = [100] := by
        decide
      rw [hfil]
      norm_num [qvariance, qmean])

/-! ## Claim C7 -/

theorem analyzeFillers_degenerate (fillers : List String) (θ : ℚ) (s : String)
    (h : s = emptyStr ∨ (fillerTokens s).length = 0) :
    analyzeFillers fillers θ s = ⟨0, 0, [], 100⟩ := by
  unfold analyzeFillers
  rcases h with h | h
  · rw [if_pos h]
  · by_cases hs : s = emptyStr
    · rw [if_pos hs]
    · rw [if_neg hs, if_pos h]

theorem analyzeFillers_main (fillers : List String) (θ : ℚ) (s : String)
    (hs : ¬ s = emptyStr) (hw : ¬ (fillerTokens s).length = 0) :
    analyzeFillers fillers θ s =
      ⟨(foundFillers fillers s).length,
       ((foundFillers fillers s).length : ℚ) / ((fillerTokens s).length : ℚ),
       (foundFillers fillers s).dedup,
       fillerScoreOf θ
         (((foundFillers fillers s).length : ℚ) / ((fillerTokens s).length : ℚ))⟩ := by
  unfold analyzeFillers
  rw [if_neg hs, if_neg hw]

/-- Above the threshold, once the penalty `ratio*1000` reaches 100 the score
bottoms out at 0. -/
theorem fillerScoreOf_zero {θ r : ℚ} (h1 : ¬ r ≤ θ) (h2 : 100 ≤ r * 1000) :
    fillerScoreOf θ r = 0 := by
  unfold fillerScoreOf
  rw [if_neg h1]
  have hle : pyInt (100 - r * 1000) ≤ 0 := by
    have hn : 100 - r * 1000 ≤ 0 := by linarith
    calc pyInt (100 - r * 1000) ≤ pyInt 0 := pyInt_mono hn
      _ = 0 := by simp [pyInt]
  rw [max_eq_left hle]
  rfl

def cexFillersA : String := "um one two three four five six seven eight nine"

def cexFillersB : String := "um uh one two three four five six seven eight"

theorem cexFillersA_metrics :
    (analyzeFillers defaultFillerWords (1 / 20) cexFillersA).count = 1 ∧
    (analyzeFillers defaultFillerWords (1 / 20) cexFillersA).ratio = 1 / 10 ∧
    (analyzeFillers defaultFillerWords (1 / 20) cexFillersA).score = 0 := by
  have hm := analyzeFillers_main defaultFillerWords (1 / 20) cexFillersA
    (by decide) (by decide)
  have hfound : (foundFillers defaultFillerWords cexFillersA).length = 1 := by decide
  have hlen : (fillerTokens cexFillersA).length = 10 := by decide
  rw [hm, hfound, hlen]
  refine ⟨rfl, by norm_num, ?_⟩
  show fillerScoreOf (1 / 20) ((1 : ℚ) / 10) = 0
  exact fillerScoreOf_zero (by norm_num) (by norm_num)

theorem cexFillersB_metrics :
    (analyzeFillers defaultFillerWords (1 / 20) cexFillersB).count = 2 ∧
    (analyzeFillers defaultFillerWords (1 / 20) cexFillersB).ratio = 1 / 5 ∧
    (analyzeFillers defaultFillerWords (1 / 20) cexFillersB).score = 0 := by
  have hm := analyzeFillers_main defaultFillerWords (1 / 20) cexFillersB
    (by decide) (by decide)
  have hfound : (foundFillers defaultFillerWords cexFillersB).length = 2 := by decide
  have hlen : (fillerTokens cexFillersB).length = 10 := by decide
  rw [hm, hfound, hlen]
  refine ⟨rfl, by norm_num, ?_⟩
  show fillerScoreOf (1 / 20) ((2 : ℚ) / 10) = 0
  exact fillerScoreOf_zero (by norm_num) (by norm_num)

/-- C7 counterexample: two ten-word transcriptions, with one filler (ratio
0.1) and two fillers (ratio 0.2) respectively; both ratios exceed the 5%
threshold and the second has strictly more filler occurrences, yet both
score 0 (the score is floored at 0), so the score with more fillers is not
strictly lower. -/
theorem C7_counterexample :
    (fillerTokens cexFillersA).length = 10 ∧
    (fillerTokens cexFillersB).length = 10 ∧
    (analyzeFillers defaultFillerWords (1 / 20) cexFillersA).count = 1 ∧
    (analyzeFillers defaultFillerWords (1 / 20) cexFillersB).count = 2 ∧
    (1 / 20 : ℚ) < (analyzeFillers defaultFillerWords (1 / 20) cexFillersA).ratio ∧
    (1 / 20 : ℚ) < (analyzeFillers defaultFillerWords (1 / 20) cexFillersB).ratio ∧
    ¬ ((analyzeFillers defaultFillerWords (1 / 20) cexFillersB).score <
       (analyzeFillers defaultFillerWords (1 / 20) cexFillersA).score) := by
  refine ⟨by decide, by decide, cexFillersA_metrics.1, cexFillersB_metrics.1, ?_, ?_, ?_⟩
  · rw [cexFillersA_metrics.2.1]; norm_num
  · rw [cexFillersB_metrics.2.1]; norm_num
  · rw [cexFillersA_metrics.2.2, cexFillersB_metrics.2.2]
    exact lt_irrefl 0

/-- C7 amended: for a non-negative configured threshold and two
transcriptions with the same total word count whose filler ratios both
exceed the threshold, the one with strictly more filler occurrences
receives a lower **or equal** filler sub-score (weak monotonicity;
strictness fails once the `max(0, ...)` floor or the `int` truncation
collapses the two values, as in the counterexample). -/
theorem C7_filler_weakly_monotone (fillers : List String) (θ : ℚ) (s t : String)
    (hθ : 0 ≤ θ)
    (hT : (fillerTokens s).length = (fillerTokens t).length)
    (hr1 : θ < (analyzeFillers fillers θ s).ratio)
    (hr2 : θ < (analyzeFillers fillers θ t).ratio)
    (hc : (analyzeFillers fillers θ s).count < (analyzeFillers fillers θ t).count) :
    (analyzeFillers fillers θ t).score ≤ (analyzeFillers fillers θ s).score := by
  by_cases hdegs : s = emptyStr ∨ (fillerTokens s).length = 0
  · rw [analyzeFillers_degenerate fillers θ s hdegs] at hr1
    exact absurd hr1 (not_lt.mpr hθ)
  by_cases hdegt : t = emptyStr ∨ (fillerTokens t).length = 0
  · rw [analyzeFillers_degenerate fillers θ t hdegt] at hr2
    exact absurd hr2 (not_lt.mpr hθ)
  push_neg at hdegs hdegt
  have hms := analyzeFillers_main fillers θ s hdegs.1 hdegs.2
  have hmt := analyzeFillers_main fillers θ t hdegt.1 hdegt.2
  rw [hms] at hr1 hc ⊢
  rw [hmt] at hr2 hc ⊢
  dsimp only at hr1 hr2 hc ⊢
  rw [← hT] at hr2 ⊢
  have hT0 : (0 : ℚ) < ((fillerTokens s).length : ℚ) := by
    exact_mod_cast Nat.pos_of_ne_zero hdegs.2
  have hratio : ((foundFillers fillers s).length : ℚ) / ((fillerTokens s).length : ℚ) <
      ((foundFillers fillers t).length : ℚ) / ((fillerTokens s).length : ℚ) :=
    div_lt_div_of_pos_right (by exact_mod_cast hc) hT0
  unfold fillerScoreOf
  rw [if_neg (not_le.mpr hr1), if_neg (not_le.mpr hr2)]
  apply Int.toNat_le_toNat
  apply max_le_max le_rfl
  apply pyInt_mono
  linarith

/-- C7 witness: the amended weak monotonicity applied to the two concrete
ten-word transcriptions (1 filler vs 2 fillers, both over the threshold). -/
theorem C7_witness :
    (analyzeFillers defaultFillerWords (1 / 20) cexFillersB).score ≤
      (analyzeFillers defaultFillerWords (1 / 20) cexFillersA).score :=
  C7_filler_weakly_monotone defaultFillerWords (1 / 20) cexFillersA cexFillersB
    (by norm_num) (by decide)
    (by rw [cexFillersA_metrics.2.1]; norm_num)
    (by rw [cexFillersB_metrics.2.1]; norm_num)
    (by rw [cexFillersA_metrics.1, cexFillersB_metrics.1]; norm_num)

/-! ## Claim C10 -/

/-- Every character of every token produced by `runsAux` is a word
character (provided the accumulated run consists of word characters). -/
theorem runsAux_wordChars : ∀ (l acc : List Char),
    (∀ c ∈ acc, isWordChar c = true) →
    ∀ t ∈ runsAux l acc, ∀ c ∈ t, isWordChar c = true := by
  intro l
  induction l with
  | nil =>
    intro acc hacc t ht c hc
    unfold runsAux at ht
    by_cases hae : acc.isEmpty
    · rw [if_pos hae] at ht
      exact absurd ht (List.not_mem_nil t)
    · rw [if_neg hae] at ht
      rcases List.mem_singleton.mp ht with rfl
      exact hacc c (List.mem_reverse.mp hc)
  | cons ch cs ih =>
    intro acc hacc t ht c hc
    unfold runsAux at ht
    by_cases hw : isWordChar ch = true
    · rw [if_pos hw] at ht
      refine ih (ch :: acc) ?_ t ht c hc
      intro x hx
      rcases List.mem_cons.mp hx with rfl | hx'
      · exact hw
      · exact hacc x hx'
    · rw [if_neg hw] at ht
      by_cases hae : acc.isEmpty
      · rw [if_pos hae] at ht
        exact ih [] (by intro x hx; exact absurd hx (List.not_mem_nil x)) t ht c hc
      · rw [if_neg hae] at ht
        rcases List.mem_cons.mp ht with rfl | ht'
        · exact hacc c (List.mem_reverse.mp hc)
        · exact ih [] (by intro x hx; exact absurd hx (List.not_mem_nil x)) t ht' c hc

/-- Every token of `wordTokens` consists solely of word characters. -/
theorem wordTokens_chars (s : String) :
    ∀ t ∈ wordTokens s, ∀ c ∈ t.data, isWordChar c = true := by
  intro t ht c hc
  obtain ⟨cs, hcs, rfl⟩ := List.mem_map.mp ht
  exact runsAux_wordChars s.data [] (by intro x hx; exact absurd hx (List.not_mem_nil x))
    cs hcs c hc

def youKnowStr : String := "you know"

/-- C10: tokenization yields single words (word-character runs), so the
two-word filler entry "you know" can never equal a token: it is in the
default filler list, it is never among the tokens of any transcription, and
filler analysis gives identical results with or without it in the list. -/
theorem C10_multiword_filler_never_counted (s : String) (θ : ℚ) :
    youKnowStr ∈ defaultFillerWords ∧
    youKnowStr ∉ fillerTokens s ∧
    analyzeFillers defaultFillerWords θ s =
      analyzeFillers (defaultFillerWords.erase youKnowStr) θ s := by
  have hnot : youKnowStr ∉ fillerTokens s := by
    intro hmem
    have hchars := wordTokens_chars (toLowerStr s) youKnowStr hmem
    have hsp : (' ') ∈ youKnowStr.data := by decide
    have := hchars (' ') hsp
    exact absurd this (by decide)
  have hfe : foundFillers defaultFillerWords s =
      foundFillers (defaultFillerWords.erase youKnowStr) s := by
    unfold foundFillers
    apply List.filter_congr
    intro w hw
    have hwne : w ≠ youKnowStr := by
      intro he
      exact hnot (he ▸ hw)
    simp only [List.contains, List.elem_eq_mem]
    congr 1
    exact propext ⟨fun hm => (List.mem_erase_of_ne hwne).mpr hm,
      fun hm => (List.mem_erase_of_ne hwne).mp hm⟩
  refine ⟨by decide, hnot, ?_⟩
  unfold analyzeFillers
  rw [hfe]

/-! ## Claim C1 -/

/-- Invariant of the buffer state relative to the total appended stream
`t`: the live buffer is `t` with `step` samples consumed per sliced window,
and the `i`-th sliced window is the `W`-sample slice of `t` starting at
offset `step * i`. -/
def BufInv (W step : ℕ) (t : List ℤ) (s : List ℤ × List (List ℤ)) : Prop :=
  s.1 = t.drop (step * s.2.length) ∧
  ∀ i (h : i < s.2.length),
    step * i + W ≤ t.length ∧ s.2[i] = (t.drop (step * i)).take W

theorem BufInv.consumed_le {W step : ℕ} {t : List ℤ} {s : List ℤ × List (List ℤ)}
    (hsW : step ≤ W) (h : BufInv W step t s) : step * s.2.length ≤ t.length := by
  rcases Nat.eq_zero_or_pos s.2.length with h0 | hpos
  · rw [h0, Nat.mul_zero]
    exact Nat.zero_le _
  · obtain ⟨m, hm⟩ : ∃ m, s.2.length = m + 1 := ⟨s.2.length - 1, by omega⟩
    have hW := (h.2 m (by omega)).1
    rw [hm, Nat.mul_succ]
    omega

theorem bufInv_append {W step : ℕ} {t : List ℤ} {s : List ℤ × List (List ℤ)}
    (hsW : step ≤ W) (h : BufInv W step t s) (c : List ℤ) :
    BufInv W step (t ++ c) (s.1 ++ c, s.2) := by
  have hcle := h.consumed_le hsW
  constructor
  · show s.1 ++ c = (t ++ c).drop (step * s.2.length)
    rw [List.drop_append_of_le_length hcle, h.1]
  · intro i hi
    obtain ⟨h1, h2⟩ := h.2 i hi
    constructor
    · rw [List.length_append]
      omega
    · show s.2[i] = ((t ++ c).drop (step * i)).take W
      rw [List.drop_append_of_le_length (by omega),
        List.take_append_of_le_length (by rw [List.length_drop]; omega), h2]

theorem bufStep_append_eq (W step : ℕ) (s : List ℤ × List (List ℤ)) (c : List ℤ) :
    bufStep W step s (.append c) = (s.1 ++ c, s.2) := rfl

theorem bufStep_slice_eq (W step : ℕ) (s : List ℤ × List (List ℤ))
    (h : W ≤ s.1.length) :
    bufStep W step s .slice = (s.1.drop step, s.2 ++ [s.1.take W]) := by
  unfold bufStep sliceWindow
  rw [if_pos h]

theorem bufStep_slice_skip (W step : ℕ) (s : List ℤ × List (List ℤ))
    (h : ¬ W ≤ s.1.length) :
    bufStep W step s .slice = s := by
  unfold bufStep sliceWindow
  rw [if_neg h]

theorem bufInv_slice {W step : ℕ} {t : List ℤ} {s : List ℤ × List (List ℤ)}
    (hsW : step ≤ W) (h : BufInv W step t s) :
    BufInv W step t (bufStep W step s .slice) := by
  by_cases hlen : W ≤ s.1.length
  · rw [bufStep_slice_eq W step s hlen]
    have hbl : s.1.length = t.length - step * s.2.length := by
      rw [h.1, List.length_drop]
    have hcle := h.consumed_le hsW
    have hkW : step * s.2.length + W ≤ t.length := by omega
    constructor
    · show s.1.drop step = t.drop (step * (s.2 ++ [s.1.take W]).length)
      rw [h.1, List.drop_drop, List.length_append, List.length_singleton,
        Nat.mul_succ]
    · intro i hi
      rw [List.length_append, List.length_singleton] at hi
      by_cases hik : i < s.2.length
      · obtain ⟨h1, h2⟩ := h.2 i hik
        refine ⟨h1, ?_⟩
        show (s.2 ++ [s.1.take W])[i] = (t.drop (step * i)).take W
        rw [List.getElem_append_left hik]
        exact h2
      · have hieq : i = s.2.length := by omega
        subst hieq
        refine ⟨hkW, ?_⟩
        show (s.2 ++ [s.1.take W])[s.2.length] = (t.drop (step * s.2.length)).take W
        rw [List.getElem_concat_length _ _ _ rfl, h.1]
  · rw [bufStep_slice_skip W step s hlen]
    exact h

theorem bufInv_run (W step : ℕ) (hsW : step ≤ W) :
    ∀ (ops : List BufferOp) (t : List ℤ) (s : List ℤ × List (List ℤ)),
      BufInv W step t s →
      BufInv W step (t ++ totalOf ops) (ops.foldl (bufStep W step) s) := by
  intro ops
  induction ops with
  | nil =>
    intro t s h
    simpa [totalOf] using h
  | cons op rest ih =>
    intro t s h
    cases op with
    | append c =>
      have h1 : BufInv W step (t ++ c) (bufStep W step s (.append c)) := by
        rw [bufStep_append_eq]
        exact bufInv_append hsW h c
      have h2 := ih (t ++ c) _ h1
      simpa [totalOf, List.append_assoc] using h2
    | slice =>
      have h1 := bufInv_slice hsW h
      have h2 := ih t _ h1
      simpa [totalOf] using h2

theorem bufInv_runOps (W step : ℕ) (hsW : step ≤ W) (ops : List BufferOp) :
    BufInv W step (totalOf ops) (runOps W step ops) := by
  have h0 : BufInv W step [] ([], []) := by
    refine ⟨rfl, ?_⟩
    intro i hi
    exact absurd hi (by simp)
  have := bufInv_run W step hsW ops [] ([], []) h0
  simpa [runOps] using this

/-- C1: for overlap `O < W` and step `W - O`, over any sequence of appends
and slice attempts from the empty buffer: (a) every sliced window is the
full-`W` slice of the total appended stream at offset `step*i` — windows
tile the stream at stride `step`, so no sample outside the overlap region
is skipped or duplicated; (b) the last `O` samples of each window are the
first `O` samples of the next; (c) a slice on a sufficient buffer returns
the first `W` buffered samples, retains `buffer[step:]`, and the retained
buffer begins with the trailing `O` samples of the returned window. -/
theorem C1_slicing_invariant (W O : ℕ) (hOW : O < W) (ops : List BufferOp) :
    (∀ i (h : i < (runOps W (W - O) ops).2.length),
      (runOps W (W - O) ops).2[i] =
        ((totalOf ops).drop ((W - O) * i)).take W ∧
      ((runOps W (W - O) ops).2[i]).length = W) ∧
    (∀ i (h1 : i < (runOps W (W - O) ops).2.length)
       (h2 : i + 1 < (runOps W (W - O) ops).2.length),
      ((runOps W (W - O) ops).2[i]).drop (W - O) =
        ((runOps W (W - O) ops).2[i + 1]).take O) ∧
    (∀ b : List ℤ, W ≤ b.length →
      sliceWindow W (W - O) b = some (b.take W, b.drop (W - O)) ∧
      (b.drop (W - O)).take O = (b.take W).drop (W - O)) := by
  have hsW : W - O ≤ W := Nat.sub_le W O
  have hinv := bufInv_runOps W (W - O) hsW ops
  have hWO : W - (W - O) = O := by omega
  refine ⟨?_, ?_, ?_⟩
  · intro i h
    obtain ⟨h1, h2⟩ := hinv.2 i h
    refine ⟨h2, ?_⟩
    rw [h2, List.length_take, List.length_drop]
    omega
  · intro i h1 h2
    obtain ⟨ha1, he1⟩ := hinv.2 i h1
    obtain ⟨ha2, he2⟩ := hinv.2 (i + 1) h2
    rw [he1, he2, List.drop_take, List.drop_drop, List.take_take, hWO,
      ← Nat.mul_succ, min_eq_left (Nat.le_of_lt hOW)]
  · intro b hb
    constructor
    · unfold sliceWindow
      rw [if_pos hb]
    · rw [List.drop_take, hWO]

def demoOps : List BufferOp :=
  [.append [1, 2, 3, 4], .slice, .append [5, 6], .slice]

/-- C1 witness: window length 3, overlap 1 (step 2); appending
`[1,2,3,4]` then `[5,6]` with a slice after each yields windows `[1,2,3]`
and `[3,4,5]`, whose one-sample overlap agrees. -/
theorem C1_witness :
    (runOps 3 2 demoOps).2 = [[1, 2, 3], [3, 4, 5]] ∧
    ((runOps 3 2 demoOps).2.get ⟨0, by decide⟩).drop 2 =
      ((runOps 3 2 demoOps).2.get ⟨1, by decide⟩).take 1 := by
  constructor
  · decide
  · exact (C1_slicing_invariant 3 1 (by decide) demoOps).2.1 0 (by decide) (by decide)
